import Mathlib

/-!
Verification of the Solar3 2D gravity engine core against its specification.

The definitions below are shallow embeddings of the Rust source:
- src/quadtree.rs : Quad, Node, QuadTree (insert, build_mass_centers, approx_acc)
- src/sim.rs      : Class, Body, the leapfrog integrator (kick1_drift, kick2),
                    the spatial hash (spatial_hash_build) and the collision
                    resolver (resolve_collisions: Absorb decide pass and the
                    Elastic pair update).

Rust `f32` arithmetic is embedded as arithmetic in a linear ordered field
(instantiated at ℚ where exact evaluation is needed and at ℝ where square
roots and real powers occur).  `Vec2` mirrors glam/bevy `Vec2`.
-/

namespace Solar

/-- Embedding of glam `Vec2`: a 2D vector over a field. -/
structure Vec2 (α : Type) where
  x : α
  y : α
deriving DecidableEq, Repr

attribute [ext] Vec2

variable {α : Type} [LinearOrderedField α]

instance : Add (Vec2 α) := ⟨fun a b => ⟨a.x + b.x, a.y + b.y⟩⟩

instance : Sub (Vec2 α) := ⟨fun a b => ⟨a.x - b.x, a.y - b.y⟩⟩

instance : Neg (Vec2 α) := ⟨fun a => ⟨-a.x, -a.y⟩⟩

instance : Zero (Vec2 α) := ⟨⟨0, 0⟩⟩

instance : SMul α (Vec2 α) := ⟨fun c v => ⟨c * v.x, c * v.y⟩⟩

/-- Embedding of glam `Vec2 * f32` (vector times scalar). -/
instance : HMul (Vec2 α) α (Vec2 α) := ⟨fun v c => ⟨v.x * c, v.y * c⟩⟩

/-- Embedding of glam `Vec2 / f32` (componentwise division by a scalar). -/
def Vec2.divs (v : Vec2 α) (c : α) : Vec2 α := ⟨v.x / c, v.y / c⟩

/-- Embedding of glam `Vec2::dot`. -/
def Vec2.dot (a b : Vec2 α) : α := a.x * b.x + a.y * b.y

/-- Embedding of glam `Vec2::length_squared`. -/
def Vec2.len2 (v : Vec2 α) : α := v.x * v.x + v.y * v.y

@[simp] lemma Vec2.add_x (a b : Vec2 α) : (a + b).x = a.x + b.x := rfl

@[simp] lemma Vec2.add_y (a b : Vec2 α) : (a + b).y = a.y + b.y := rfl

@[simp] lemma Vec2.sub_x (a b : Vec2 α) : (a - b).x = a.x - b.x := rfl

@[simp] lemma Vec2.sub_y (a b : Vec2 α) : (a - b).y = a.y - b.y := rfl

@[simp] lemma Vec2.smul_x (c : α) (v : Vec2 α) : (c • v).x = c * v.x := rfl

@[simp] lemma Vec2.smul_y (c : α) (v : Vec2 α) : (c • v).y = c * v.y := rfl

@[simp] lemma Vec2.hmul_x (v : Vec2 α) (c : α) : (v * c).x = v.x * c := rfl

@[simp] lemma Vec2.hmul_y (v : Vec2 α) (c : α) : (v * c).y = v.y * c := rfl

@[simp] lemma Vec2.zero_x : (0 : Vec2 α).x = 0 := rfl

@[simp] lemma Vec2.zero_y : (0 : Vec2 α).y = 0 := rfl

@[simp] lemma Vec2.divs_x (v : Vec2 α) (c : α) : (v.divs c).x = v.x / c := rfl

@[simp] lemma Vec2.divs_y (v : Vec2 α) (c : α) : (v.divs c).y = v.y / c := rfl

/-- Embedding of `Quad` (src/quadtree.rs lines 3-26): an axis-aligned square
given by its center and half side length. -/
structure Quad (α : Type) where
  center : Vec2 α
  half_size : α
deriving DecidableEq, Repr

/-- Embedding of `Quad::contains` (src/quadtree.rs lines 10-15): inclusive
containment on both axes. -/
def Quad.contains (q : Quad α) (p : Vec2 α) : Prop :=
  p.x ≥ q.center.x - q.half_size ∧ p.x ≤ q.center.x + q.half_size ∧
  p.y ≥ q.center.y - q.half_size ∧ p.y ≤ q.center.y + q.half_size

instance (q : Quad α) (p : Vec2 α) : Decidable (q.contains p) := by
  unfold Quad.contains
  exact inferInstance

/-- Embedding of `Quad::subdivide` (src/quadtree.rs lines 16-24): the four
child quadrants, array-ordered NW, NE, SW, SE exactly as in the source. -/
def Quad.subdivide (q : Quad α) : Fin 4 → Quad α := fun i =>
  let hs := q.half_size * (1 / 2)
  match i with
  | ⟨0, _⟩ => ⟨⟨q.center.x - hs, q.center.y + hs⟩, hs⟩ -- NW
  | ⟨1, _⟩ => ⟨⟨q.center.x + hs, q.center.y + hs⟩, hs⟩ -- NE
  | ⟨2, _⟩ => ⟨⟨q.center.x - hs, q.center.y - hs⟩, hs⟩ -- SW
  | ⟨3, _⟩ => ⟨⟨q.center.x + hs, q.center.y - hs⟩, hs⟩ -- SE

/-- Embedding of `Quad::size`: full side length. -/
def Quad.size (q : Quad α) : α := q.half_size * 2

/-- Embedding of `Node` (src/quadtree.rs lines 28-32); the `[Box<Node>; 4]`
children array is embedded as a function from `Fin 4`. -/
inductive Node (α : Type) where
  | empty : Quad α → Node α
  | leaf : Quad α → Vec2 α → α → Node α
  | internal : Quad α → α → Vec2 α → (Fin 4 → Node α) → Node α

/-- Embedding of `QuadTree::child_index` (src/quadtree.rs lines 62-66):
`(top << 1) | right` with `right = p.x > center.x`, `top = p.y > center.y`. -/
def childIndex (p : Vec2 α) (q : Quad α) : Fin 4 :=
  if p.y > q.center.y then
    (if p.x > q.center.x then 3 else 2)
  else
    (if p.x > q.center.x then 1 else 0)

/-- Pointwise update of a single slot of the children array,
embedding `children[idx] = ...`. -/
def updAt (ch : Fin 4 → Node α) (i : Fin 4) (n : Node α) : Fin 4 → Node α :=
  fun j => if j = i then n else ch j

/-- Embedding of `QuadTree::insert_node` (src/quadtree.rs lines 42-60).
The Rust recursion has no termination guarantee (the spec, section 9, notes
unbounded subdivision on coincident points), so the embedding is indexed by
explicit fuel; with fuel 0 the node is returned unchanged.  Every claim below
is evaluated at a fuel large enough that the fuel case is never reached. -/
def insertNode : Nat → Node α → Vec2 α → α → Node α
  | 0, node, _, _ => node
  | _ + 1, Node.empty q, p, m =>
      if q.contains p then Node.leaf q p m else Node.empty q
  | fuel + 1, Node.leaf q pos m0, p, m =>
      let cs : Fin 4 → Node α := fun i => Node.empty (q.subdivide i)
      let i1 := childIndex pos q
      let cs1 := updAt cs i1 (insertNode fuel (cs i1) pos m0)
      let i2 := childIndex p q
      let cs2 := updAt cs1 i2 (insertNode fuel (cs1 i2) p m)
      Node.internal q 0 0 cs2
  | fuel + 1, Node.internal q m0 c0 ch, p, m =>
      let idx := childIndex p q
      Node.internal q m0 c0 (updAt ch idx (insertNode fuel (ch idx) p m))

/-- Embedding of the inner `compute` of `QuadTree::build_mass_centers`
(src/quadtree.rs lines 68-88): returns the updated node together with its
(mass, center of mass); the children loop accumulates in array order. -/
def computeMC : Node α → Node α × α × Vec2 α
  | Node.empty q => (Node.empty q, 0, 0)
  | Node.leaf q pos m => (Node.leaf q pos m, m, pos)
  | Node.internal q _ _ ch =>
      let r0 := computeMC (ch 0)
      let r1 := computeMC (ch 1)
      let r2 := computeMC (ch 2)
      let r3 := computeMC (ch 3)
      let total := 0 + r0.2.1 + r1.2.1 + r2.2.1 + r3.2.1
      let weighted := (0 : Vec2 α) + r0.2.2 * r0.2.1 + r1.2.2 * r1.2.1 +
        r2.2.2 * r2.2.1 + r3.2.2 * r3.2.1
      let mass := max total 0
      let com := if total > 0 then weighted.divs total else 0
      (Node.internal q mass com (fun i =>
        match i with
        | ⟨0, _⟩ => r0.1
        | ⟨1, _⟩ => r1.1
        | ⟨2, _⟩ => r2.1
        | ⟨3, _⟩ => r3.1), mass, com)

/-- Embedding of `QuadTree::build_mass_centers` as a tree transformer. -/
def buildMassCenters (n : Node α) : Node α := (computeMC n).1

/-- Aggregate mass stored at a node: the cached mass for an internal node,
the body mass for a leaf, zero for an empty node. -/
def rootMass : Node α → α
  | Node.empty _ => 0
  | Node.leaf _ _ m => m
  | Node.internal _ m _ _ => m

/-- Total mass actually held by leaves of the tree (the mass that survived
insertion). -/
def leafMassSum : Node α → α
  | Node.empty _ => 0
  | Node.leaf _ _ m => m
  | Node.internal _ _ _ ch =>
      leafMassSum (ch 0) + leafMassSum (ch 1) + leafMassSum (ch 2) +
        leafMassSum (ch 3)

/-- Embedding of `QuadTree` (src/quadtree.rs lines 34-40). -/
structure QuadTree (α : Type) where
  root : Node α

/-- Embedding of `QuadTree::new`. -/
def QuadTree.new (bounds : Quad α) : QuadTree α := ⟨Node.empty bounds⟩

/-- Embedding of `QuadTree::insert` (with fuel, see `insertNode`). -/
def QuadTree.insert (t : QuadTree α) (fuel : Nat) (p : Vec2 α) (m : α) :
    QuadTree α := ⟨insertNode fuel t.root p m⟩

/-- Embedding of `QuadTree::build_mass_centers` on the wrapper. -/
def QuadTree.buildMC (t : QuadTree α) : QuadTree α := ⟨buildMassCenters t.root⟩

/-- Embedding of `Class` (src/sim.rs lines 152-158): the body class derived
from mass. -/
inductive Class where
  | asteroid
  | planet
  | star
  | blackHole
deriving DecidableEq, Repr

/-- Embedding of `Class::from_mass` (src/sim.rs lines 175-185). -/
def Class.fromMass (m : α) : Class :=
  if m < 500 then Class.asteroid
  else if m < 20000 then Class.planet
  else if m < 1000000 then Class.star
  else Class.blackHole

/-- Embedding of the `Body` component (src/sim.rs lines 409-414); `class` is
renamed `cls` because `class` is reserved in Lean.  The position of a body lives
in its `Transform` and is passed separately where needed. -/
structure Body (α : Type) where
  mass : α
  vel : Vec2 α
  acc : Vec2 α
  cls : Class
deriving DecidableEq, Repr

/-- Embedding of the winner decision of the Absorb decide pass
(src/sim.rs lines 852-860): a black hole unconditionally beats a
non-black-hole, otherwise `ba.mass >= bb.mass` decides. -/
def aWins (ba bb : Body α) : Bool :=
  let aIsBh := ba.cls = Class.blackHole
  let bIsBh := bb.cls = Class.blackHole
  if aIsBh ∧ ¬bIsBh then true
  else if bIsBh ∧ ¬aIsBh then false
  else ba.mass ≥ bb.mass

/-- Embedding of the Rust `Merge` instruction record (src/sim.rs
lines 804-811), with the winner identified by which side of the pair won. -/
structure MergeRec (α : Type) where
  aWon : Bool
  newMass : α
  newVel : Vec2 α
deriving DecidableEq, Repr

/-- Embedding of the Absorb decide pass for one overlapping candidate pair
(src/sim.rs lines 852-900): winner selection, new mass
`(winner.mass * (1 + absorb_bias) + loser.mass).max(winner.mass)` and
mass-weighted new velocity `(va*ma + vb*mb) / (ma + mb)`. -/
def mergePair (ba bb : Body α) (absorbBias : α) : MergeRec α :=
  let total := ba.mass + bb.mass
  let bias := 1 + absorbBias
  if aWins ba bb then
    { aWon := true
      newMass := max (ba.mass * bias + bb.mass) ba.mass
      newVel := (ba.vel * ba.mass + bb.vel * bb.mass).divs total }
  else
    { aWon := false
      newMass := max (bb.mass * bias + ba.mass) bb.mass
      newVel := (ba.vel * ba.mass + bb.vel * bb.mass).divs total }

/-- Integrator state of one body: the Transform translation plus the Body
velocity and acceleration, as read by `kick1_drift` and `kick2`. -/
structure PBody (α : Type) where
  pos : Vec2 α
  vel : Vec2 α
  acc : Vec2 α
deriving DecidableEq, Repr

/-- Embedding of `kick1_drift` (src/sim.rs lines 647-665): when the running
flag is set, with `dt = settings.dt * settings.time_scale`, each body gets
`v_half = v + a * dt * 0.5`, the position advances by `v_half * dt`, and
`v_half` is stored as the velocity of the body. -/
def kick1Drift (running : Bool) (dt0 timeScale : α) (bodies : List (PBody α)) :
    List (PBody α) :=
  if running then
    let dt := dt0 * timeScale
    bodies.map (fun b =>
      let vHalf : Vec2 α := b.vel + b.acc * dt * ((1 : α) / 2)
      { pos := b.pos + vHalf * dt, vel := vHalf, acc := b.acc })
  else bodies

/-- Norm of a real 2D vector, mirroring glam `Vec2::length` =
`sqrt(length_squared)`. -/
noncomputable def Vec2.len (v : Vec2 ℝ) : ℝ := Real.sqrt v.len2

/-- Embedding of glam `Vec2::clamp_length_max` (used by `kick2`,
src/sim.rs line 740): if `length_squared > max * max` the vector is rescaled
by `max / sqrt(length_squared)`, otherwise it is returned unchanged. -/
noncomputable def clampLengthMax (v : Vec2 ℝ) (maxLen : ℝ) : Vec2 ℝ :=
  let lengthSq := v.len2
  if lengthSq > maxLen * maxLen then (maxLen / Real.sqrt lengthSq) • v else v

/-- Embedding of `kick2` (src/sim.rs lines 731-742): when the running flag is
set, with `dt = settings.dt * settings.time_scale`, the velocity of each body
becomes `v_full = v + a * dt * 0.5` clamped to length at most `max_vel`. -/
noncomputable def kick2 (running : Bool) (dt0 timeScale maxVel : ℝ)
    (bodies : List (PBody ℝ)) : List (PBody ℝ) :=
  if running then
    let dt := dt0 * timeScale
    bodies.map (fun b =>
      let vFull : Vec2 ℝ := b.vel + b.acc * dt * ((1 : ℝ) / 2)
      { pos := b.pos, vel := clampLengthMax vFull maxVel, acc := b.acc })
  else bodies

/-- Embedding of the inner `walk` of `QuadTree::approx_acc`
(src/quadtree.rs lines 106-137), taking `theta2 = theta * theta` exactly as
the wrapper passes it. -/
noncomputable def walk : Node ℝ → Vec2 ℝ → ℝ → ℝ → ℝ → Vec2 ℝ
  | Node.empty _, _, _, _, _ => 0
  | Node.leaf _ pos mass, p, g, _, soft2 =>
      let r := pos - p
      let dist2 := r.len2 + soft2
      if dist2 = 0 then 0
      else
        let inv := 1 / Real.sqrt dist2 ^ 3
        (g * mass * inv) • r
  | Node.internal q mass com ch, p, g, theta2, soft2 =>
      if mass = 0 then 0
      else
        let r := com - p
        let d := r.len
        let s := q.size
        if d = 0 then
          walk (ch 0) p g theta2 soft2 + walk (ch 1) p g theta2 soft2 +
            walk (ch 2) p g theta2 soft2 + walk (ch 3) p g theta2 soft2
        else if s * s / (d * d) < theta2 then
          let dist2 := d * d + soft2
          let inv := 1 / Real.sqrt dist2 ^ 3
          (g * mass * inv) • r
        else
          walk (ch 0) p g theta2 soft2 + walk (ch 1) p g theta2 soft2 +
            walk (ch 2) p g theta2 soft2 + walk (ch 3) p g theta2 soft2

/-- Embedding of `QuadTree::approx_acc` (src/quadtree.rs lines 105-139):
runs the walk from the root with `theta2 = theta * theta`. -/
noncomputable def QuadTree.approxAcc (t : QuadTree ℝ) (p : Vec2 ℝ)
    (g theta soft2 : ℝ) : Vec2 ℝ :=
  walk t.root p g (theta * theta) soft2

/-- Specification-side Barnes-Hut walk, written from the words of the claim:
an Empty node contributes zero; a Leaf at `pos` with mass `m` contributes
`g*m*r / (len2 r + soft2) ^ 1.5` with `r = pos - p` and zero when
`len2 r + soft2 = 0`; an Internal node with aggregate mass 0 contributes
zero; otherwise with `d = len (com - p)` and `s` the side length, if `d ≠ 0`
and `s^2/d^2 < theta^2` it contributes the same softened point-mass formula
at the center of mass, else (including `d = 0`) the sum of its 4 children. -/
noncomputable def specAcc : Node ℝ → Vec2 ℝ → ℝ → ℝ → ℝ → Vec2 ℝ
  | Node.empty _, _, _, _, _ => 0
  | Node.leaf _ pos mass, p, g, _, soft2 =>
      let r := pos - p
      let d2 := r.len2 + soft2
      if d2 = 0 then 0 else (g * mass / d2 ^ ((3 : ℝ) / 2)) • r
  | Node.internal q mass com ch, p, g, theta, soft2 =>
      if mass = 0 then 0
      else
        let r := com - p
        let d := r.len
        let s := q.size
        if d ≠ 0 ∧ s * s / (d * d) < theta * theta then
          (g * mass / (d * d + soft2) ^ ((3 : ℝ) / 2)) • r
        else
          specAcc (ch 0) p g theta soft2 + specAcc (ch 1) p g theta soft2 +
            specAcc (ch 2) p g theta soft2 + specAcc (ch 3) p g theta soft2

/-- Embedding of the Elastic-mode resolution of one candidate pair
(src/sim.rs lines 969-1011): `none` when the overlap test
`dist2 <= rsum*rsum && dist2 > 0` fails (the pair is skipped), otherwise the
separated positions and post-collision velocities of the two bodies.  The
radii `ra`, `rb` are the `radius_of` values computed by the caller. -/
noncomputable def elasticPair (pa pb va vb : Vec2 ℝ) (ma mb ra rb e : ℝ) :
    Option (Vec2 ℝ × Vec2 ℝ × Vec2 ℝ × Vec2 ℝ) :=
  let delta := pb - pa
  let dist2 := delta.len2
  let rsum := ra + rb
  if dist2 ≤ rsum * rsum ∧ dist2 > 0 then
    let dist := Real.sqrt dist2
    let normal := delta.divs dist
    let overlap := (rsum - dist) * ((1 : ℝ) / 2)
    let paNew := pa - normal * overlap
    let pbNew := pb + normal * overlap
    let tangent : Vec2 ℝ := ⟨-normal.y, normal.x⟩
    let van := va.dot normal
    let vat := va.dot tangent
    let vbn := vb.dot normal
    let vbt := vb.dot tangent
    let vanNew := (e * mb * (vbn - van) + ma * van + mb * vbn) / (ma + mb)
    let vbnNew := (e * ma * (van - vbn) + ma * van + mb * vbn) / (ma + mb)
    let vaNew := vanNew • normal + vat • tangent
    let vbNew := vbnNew • normal + vbt • tangent
    some (vaNew, vbNew, paNew, pbNew)
  else none

/-- Embedding of the Rust `f32::clamp` used by `radius_for_mass`. -/
def rclamp (x lo hi : ℝ) : ℝ := min (max x lo) hi

/-- Embedding of `Class::radius_for_mass` (src/sim.rs lines 186-193). -/
noncomputable def radiusForMass (m : ℝ) : ℝ :=
  match Class.fromMass m with
  | Class.asteroid => rclamp (Real.sqrt m * 0.12) 1.2 6.0
  | Class.planet => rclamp (Real.sqrt m * 0.07) 6.0 16.0
  | Class.star => rclamp (m ^ (0.33 : ℝ) * 0.6) 16.0 32.0
  | Class.blackHole => rclamp (m ^ (0.25 : ℝ) * 0.9) 32.0 60.0

/-- Position and mass of one live body, as read by `spatial_hash_build`
(the mass from `Body`, the position from `Transform`). -/
structure HBody where
  pos : Vec2 ℝ
  mass : ℝ

/-- Sum of `radius_for_mass` over all bodies, mirroring the `total_radius`
accumulation loop of `spatial_hash_build` (src/sim.rs lines 751-756). -/
noncomputable def totalRadius (bs : List HBody) : ℝ :=
  bs.foldl (fun acc b => acc + radiusForMass b.mass) 0

/-- Embedding of the cell-size computation of `spatial_hash_build`
(src/sim.rs lines 758-763): `max (2 * mean_radius) 1` when at least one body
exists, `24` otherwise. -/
noncomputable def cellSize (bs : List HBody) : ℝ :=
  if bs.length > 0 then
    let meanRadius := totalRadius bs / (bs.length : ℝ)
    max (2 * meanRadius) 1
  else 24

/-- Embedding of the grid key `(floor(x/cell), floor(y/cell))`
(src/sim.rs lines 768-771). -/
noncomputable def hashKey (cell : ℝ) (p : Vec2 ℝ) : ℤ × ℤ :=
  (⌊p.x / cell⌋, ⌊p.y / cell⌋)

/-- Embedding of `hash.map.entry(key).or_default().push(e)`: appends entity
`e` to the bucket of key `k`. -/
def bucketInsert (m : ℤ × ℤ → List Nat) (k : ℤ × ℤ) (e : Nat) :
    ℤ × ℤ → List Nat :=
  fun k2 => if k2 = k then m k2 ++ [e] else m k2

/-- Embedding of the bucket-filling loop of `spatial_hash_build`
(src/sim.rs lines 765-773), inserting bodies in order with their index as
entity id, starting the id counter at `n`. -/
noncomputable def buildFrom (cell : ℝ) :
    List (Vec2 ℝ) → Nat → (ℤ × ℤ → List Nat) → ℤ × ℤ → List Nat
  | [], _, m => m
  | p :: rest, n, m => buildFrom cell rest (n + 1) (bucketInsert m (hashKey cell p) n)

/-- Embedding of `spatial_hash_build` (src/sim.rs lines 750-774): clears the
map and buckets every live body by the key of its position. -/
noncomputable def spatialHashBuild (bs : List HBody) : ℤ × ℤ → List Nat :=
  buildFrom (cellSize bs) (bs.map HBody.pos) 0 (fun _ => [])

/-! Concrete insertion run used to settle claims C1 and C2: the root bounds
are the square of half-size 2 around the origin, and the two inserted points
(1, 1) and (-1, -1), both strictly inside the bounds, each carry mass 1. -/

/-- Root bounds of the concrete insertion run for claims C1 and C2. -/
def cexBounds : Quad ℚ := ⟨⟨0, 0⟩, 2⟩

/-- The tree obtained by inserting (1, 1) with mass 1 and then (-1, -1) with
mass 1 into an empty tree over `cexBounds` (fuel 5 is ample: the run touches
depth 2). -/
def cexTree : Node ℚ :=
  insertNode 5 (insertNode 5 (Node.empty cexBounds) ⟨1, 1⟩ 1) ⟨-1, -1⟩ 1

/-- Claim C1: for every finite sequence of insertions whose points all lie
within the root bounds, after `build_mass_centers` the aggregate mass at the
tree root equals the exact sum of all inserted masses.  The code violates this:
`subdivide` orders the children NW, NE, SW, SE while `child_index` computes
`(top << 1) | right`, which indexes the order SW, SE, NW, NE, so on the first
leaf subdivision both reinserted points are routed to vertically mirrored
quadrants, fail the Empty-node containment check, and are silently dropped.
Concretely: both points lie in the root bounds, the inserted masses sum to 2,
yet the aggregate root mass after `build_mass_centers` is 0. -/
theorem c1_root_mass_not_sum_of_inserted :
    cexBounds.contains ⟨1, 1⟩ ∧ cexBounds.contains ⟨-1, -1⟩ ∧
    rootMass (buildMassCenters cexTree) = 0 ∧
    rootMass (buildMassCenters cexTree) ≠ 1 + 1 := by
  norm_num [cexTree, cexBounds, insertNode, Quad.contains, Quad.subdivide,
    childIndex, updAt, buildMassCenters, computeMC, rootMass]

/-- Claim C2: for every point p contained in the root bounds of the tree,
`insert(p, mass)` never reaches the silent-drop branch, so no in-bounds point
is discarded.  The code violates this: with the same child-ordering mismatch
as in C1, inserting the in-bounds point (-1, -1) into the tree holding the
in-bounds leaf (1, 1) routes both points to Empty children whose bounds do
not contain them, and both are discarded — the resulting tree holds no leaf
mass at all. -/
theorem c2_in_bounds_point_silently_dropped :
    cexBounds.contains ⟨1, 1⟩ ∧ cexBounds.contains ⟨-1, -1⟩ ∧
    leafMassSum cexTree = 0 := by
  norm_num [cexTree, cexBounds, insertNode, Quad.contains, Quad.subdivide,
    childIndex, updAt, leafMassSum]

lemma len2_nonneg (v : Vec2 ℝ) : 0 ≤ v.len2 :=
  add_nonneg (mul_self_nonneg v.x) (mul_self_nonneg v.y)

lemma rpow_three_halves {x : ℝ} (hx : 0 ≤ x) :
    x ^ ((3 : ℝ) / 2) = Real.sqrt x ^ 3 := by
  rw [Real.sqrt_eq_rpow, ← Real.rpow_natCast (x ^ ((1 : ℝ) / 2)) 3,
    ← Real.rpow_mul hx]
  norm_num

lemma walk_eq_specAcc (p : Vec2 ℝ) (g theta soft2 : ℝ) (hs : 0 ≤ soft2)
    (n : Node ℝ) :
    walk n p g (theta * theta) soft2 = specAcc n p g theta soft2 := by
  induction n with
  | empty q => rfl
  | leaf q pos mass =>
      simp only [walk, specAcc]
      by_cases h : (pos - p).len2 + soft2 = 0
      · rw [if_pos h, if_pos h]
      · rw [if_neg h, if_neg h]
        have hd2 : 0 ≤ (pos - p).len2 + soft2 := add_nonneg (len2_nonneg _) hs
        rw [rpow_three_halves hd2]
        congr 1
        ring
  | internal q mass com ch ih =>
      simp only [walk, specAcc]
      by_cases hm : mass = 0
      · rw [if_pos hm, if_pos hm]
      · rw [if_neg hm, if_neg hm]
        by_cases hd : (com - p).len = 0
        · rw [if_pos hd]
          have hcond : ¬((com - p).len ≠ 0 ∧
              q.size * q.size / ((com - p).len * (com - p).len) <
                theta * theta) := by
            simp [hd]
          rw [if_neg hcond]
          rw [ih 0, ih 1, ih 2, ih 3]
        · rw [if_neg hd]
          by_cases hlt : q.size * q.size / ((com - p).len * (com - p).len) <
              theta * theta
          · rw [if_pos hlt, if_pos ⟨hd, hlt⟩]
            have hdd : 0 ≤ (com - p).len * (com - p).len + soft2 :=
              add_nonneg (mul_self_nonneg _) hs
            rw [rpow_three_halves hdd]
            congr 1
            ring
          · rw [if_neg hlt]
            have hcond : ¬((com - p).len ≠ 0 ∧
                q.size * q.size / ((com - p).len * (com - p).len) <
                  theta * theta) := by
              simp [hlt]
            rw [if_neg hcond]
            rw [ih 0, ih 1, ih 2, ih 3]

/-- Claim C3: `approx_acc(p, g, theta, soft2)` satisfies the recursive spec
case analysis for every tree and query point (for any nonnegative softening
term, which is what the caller passes since it squares a softening value):
Empty contributes zero; a Leaf contributes `g*m*r / (len2 r + soft2)^1.5`
with `r = pos - p` and zero when the denominator base is zero; an Internal
node with aggregate mass 0 contributes zero; otherwise with `d = len(com-p)`
and `s` the side length, if `d ≠ 0` and `s^2/d^2 < theta^2` it contributes
the softened point-mass formula at the center of mass, else (including
`d = 0`) the sum over its 4 children. -/
theorem c3_approx_acc_matches_spec (t : QuadTree ℝ) (p : Vec2 ℝ)
    (g theta soft2 : ℝ) (hs : 0 ≤ soft2) :
    t.approxAcc p g theta soft2 = specAcc t.root p g theta soft2 :=
  walk_eq_specAcc p g theta soft2 hs t.root

/-- Witness for C3 at a concrete one-leaf tree with softening 1. -/
theorem c3_approx_acc_matches_spec_witness :
    (0 : ℝ) ≤ 1 ∧
    (QuadTree.mk (Node.leaf ⟨⟨0, 0⟩, 2⟩ ⟨1, 0⟩ 1)).approxAcc ⟨0, 0⟩ 120
        (6 / 10) 1 =
      specAcc (Node.leaf ⟨⟨0, 0⟩, 2⟩ ⟨1, 0⟩ 1) ⟨0, 0⟩ 120 (6 / 10) 1 :=
  ⟨by norm_num,
    c3_approx_acc_matches_spec (QuadTree.mk (Node.leaf ⟨⟨0, 0⟩, 2⟩ ⟨1, 0⟩ 1))
      ⟨0, 0⟩ 120 (6 / 10) 1 (by norm_num)⟩

lemma merge_mass_bounds {w l bias : α} (hw : 0 < w) (hl : 0 < l)
    (hb : 0 ≤ bias) :
    max w l ≤ max (w * (1 + bias) + l) w ∧
    max (w * (1 + bias) + l) w ≤ max w l * (1 + bias) + min w l := by
  constructor
  · rcases le_total w l with h | h
    · rw [max_eq_right h]
      exact le_max_of_le_left (by nlinarith)
    · rw [max_eq_left h]
      exact le_max_right _ _
  · rcases le_total w l with h | h
    · rw [max_eq_right h, min_eq_left h, max_le_iff]
      exact ⟨by nlinarith, by nlinarith⟩
    · rw [max_eq_left h, min_eq_right h, max_le_iff]
      exact ⟨by nlinarith, by nlinarith⟩

lemma smul_divs_momentum (va vb : Vec2 α) (ma mb : α) (h : ma + mb ≠ 0) :
    (ma + mb) • ((va * ma + vb * mb).divs (ma + mb)) = ma • va + mb • vb := by
  ext
  · show (ma + mb) * ((va.x * ma + vb.x * mb) / (ma + mb)) =
      ma * va.x + mb * vb.x
    field_simp
    ring
  · show (ma + mb) * ((va.y * ma + vb.y * mb) / (ma + mb)) =
      ma * va.y + mb * vb.y
    field_simp
    ring

/-- Counterexample to claim C4 as stated: for the pair with masses
m1 = 2 (the winner) and m2 = 1 and bias = 1, the merged mass is
2*(1+1) + 1 = 5, which lies outside the claimed interval
[max(m1, m2), m1 + m2*(1+bias)] = [2, 4]: the code applies the bias to the
mass of the winner, not of the loser. -/
theorem c4_counterexample :
    (mergePair (Body.mk (2 : ℚ) 0 0 Class.asteroid)
        (Body.mk 1 0 0 Class.asteroid) 1).newMass = 5 ∧
    ¬(mergePair (Body.mk (2 : ℚ) 0 0 Class.asteroid)
        (Body.mk 1 0 0 Class.asteroid) 1).newMass ≤ 2 + 1 * (1 + 1) := by
  norm_num [mergePair, aWins, max_def]

/-- Claim C4 as amended: in absorb mode a merge with bias = 0 conserves
total mass exactly (merged mass = m1 + m2) and total momentum exactly
(merged mass times merged velocity equals the sum of the two momenta); and
for bias > 0 the merged mass lies in
[max(m1, m2), max(m1, m2)*(1+bias) + min(m1, m2)] — the bias multiplies the
winner mass (code: `winner.mass * (1 + bias) + loser.mass`, capped below
by the winner mass), not the loser mass as the original interval implied. -/
theorem c4_absorb_merge_mass_and_momentum (ba bb : Body α) (bias : α)
    (hma : 0 < ba.mass) (hmb : 0 < bb.mass) :
    (bias = 0 → (mergePair ba bb bias).newMass = ba.mass + bb.mass ∧
      (mergePair ba bb bias).newMass • (mergePair ba bb bias).newVel =
        ba.mass • ba.vel + bb.mass • bb.vel) ∧
    (0 < bias →
      max ba.mass bb.mass ≤ (mergePair ba bb bias).newMass ∧
      (mergePair ba bb bias).newMass ≤
        max ba.mass bb.mass * (1 + bias) + min ba.mass bb.mass) := by
  have htot : ba.mass + bb.mass ≠ 0 := by positivity
  rcases Bool.eq_false_or_eq_true (aWins ba bb) with hw | hw <;>
    simp only [mergePair, hw, if_true, if_false, Bool.false_eq_true,
      Bool.true_eq_false]
  · -- aWins = true : a wins
    refine ⟨fun hb0 => ?_, fun hbp => ?_⟩
    · subst hb0
      have hm : max (ba.mass * (1 + 0) + bb.mass) ba.mass =
          ba.mass + bb.mass := by
        rw [add_zero, mul_one, max_eq_left (by nlinarith)]
      rw [hm]
      exact ⟨rfl, smul_divs_momentum ba.vel bb.vel ba.mass bb.mass htot⟩
    · exact merge_mass_bounds hma hmb hbp.le
  · -- aWins = false : b wins
    refine ⟨fun hb0 => ?_, fun hbp => ?_⟩
    · subst hb0
      have hm : max (bb.mass * (1 + 0) + ba.mass) bb.mass =
          ba.mass + bb.mass := by
        rw [add_zero, mul_one, add_comm bb.mass ba.mass,
          max_eq_left (by nlinarith)]
      rw [hm]
      exact ⟨rfl, smul_divs_momentum ba.vel bb.vel ba.mass bb.mass htot⟩
    · have h := merge_mass_bounds hmb hma hbp.le
      rw [max_comm bb.mass ba.mass, min_comm bb.mass ba.mass] at h
      exact h

/-- Witness for C4 (amended) at masses 3 and 2 with bias 0. -/
theorem c4_absorb_merge_mass_and_momentum_witness :
    (0 : ℚ) < 3 ∧ (0 : ℚ) < 2 ∧
    (((0 : ℚ) = 0 →
      (mergePair (Body.mk (3 : ℚ) 0 0 Class.asteroid)
          (Body.mk 2 0 0 Class.asteroid) 0).newMass = 3 + 2 ∧
      (mergePair (Body.mk (3 : ℚ) 0 0 Class.asteroid)
            (Body.mk 2 0 0 Class.asteroid) 0).newMass •
          (mergePair (Body.mk (3 : ℚ) 0 0 Class.asteroid)
            (Body.mk 2 0 0 Class.asteroid) 0).newVel =
        (3 : ℚ) • (0 : Vec2 ℚ) + (2 : ℚ) • (0 : Vec2 ℚ)) ∧
    ((0 : ℚ) < 0 →
      max (3 : ℚ) 2 ≤ (mergePair (Body.mk (3 : ℚ) 0 0 Class.asteroid)
          (Body.mk 2 0 0 Class.asteroid) 0).newMass ∧
      (mergePair (Body.mk (3 : ℚ) 0 0 Class.asteroid)
          (Body.mk 2 0 0 Class.asteroid) 0).newMass ≤
        max (3 : ℚ) 2 * (1 + 0) + min (3 : ℚ) 2)) :=
  ⟨by norm_num, by norm_num,
    c4_absorb_merge_mass_and_momentum (Body.mk (3 : ℚ) 0 0 Class.asteroid)
      (Body.mk 2 0 0 Class.asteroid) 0 (by norm_num) (by norm_num)⟩

/-- Claim C5: in the absorb decide pass, for every overlapping candidate
pair (a, b) the winner is chosen as: a black hole unconditionally beats a
non-black-hole; otherwise the body with the greater mass wins, and an exact
tie is resolved by iteration order, meaning the earlier body a wins. -/
theorem c5_absorb_winner_selection (ba bb : Body α) :
    (ba.cls = Class.blackHole ∧ bb.cls ≠ Class.blackHole →
      aWins ba bb = true) ∧
    (bb.cls = Class.blackHole ∧ ba.cls ≠ Class.blackHole →
      aWins ba bb = false) ∧
    ((ba.cls = Class.blackHole ↔ bb.cls = Class.blackHole) →
      (bb.mass < ba.mass → aWins ba bb = true) ∧
      (ba.mass < bb.mass → aWins ba bb = false) ∧
      (ba.mass = bb.mass → aWins ba bb = true)) := by
  refine ⟨fun ⟨h1, h2⟩ => ?_, fun ⟨h1, h2⟩ => ?_,
    fun hiff => ⟨fun hlt => ?_, fun hlt => ?_, fun heq => ?_⟩⟩
  · simp [aWins, h1, h2]
  · simp [aWins, h1, h2]
  · simp only [aWins]
    rw [if_neg (fun ⟨ha, hb⟩ => hb (hiff.mp ha)),
      if_neg (fun ⟨hb, ha⟩ => ha (hiff.mpr hb))]
    simp [hlt.le]
  · simp only [aWins]
    rw [if_neg (fun ⟨ha, hb⟩ => hb (hiff.mp ha)),
      if_neg (fun ⟨hb, ha⟩ => ha (hiff.mpr hb))]
    simp [not_le.mpr hlt]
  · simp only [aWins]
    rw [if_neg (fun ⟨ha, hb⟩ => hb (hiff.mp ha)),
      if_neg (fun ⟨hb, ha⟩ => ha (hiff.mpr hb))]
    simp [heq.ge]

/-- Witness for C5: a light black hole beats a heavy star, the mirrored pair
goes the other way, and a heavier asteroid beats a lighter one. -/
theorem c5_absorb_winner_selection_witness :
    aWins (Body.mk (1 : ℚ) 0 0 Class.blackHole)
      (Body.mk 5 0 0 Class.star) = true ∧
    aWins (Body.mk (5 : ℚ) 0 0 Class.star)
      (Body.mk 1 0 0 Class.blackHole) = false ∧
    aWins (Body.mk (7 : ℚ) 0 0 Class.asteroid)
      (Body.mk 4 0 0 Class.asteroid) = true :=
  ⟨(c5_absorb_winner_selection (Body.mk (1 : ℚ) 0 0 Class.blackHole)
      (Body.mk 5 0 0 Class.star)).1 ⟨rfl, by decide⟩,
    (c5_absorb_winner_selection (Body.mk (5 : ℚ) 0 0 Class.star)
      (Body.mk 1 0 0 Class.blackHole)).2.1 ⟨rfl, by decide⟩,
    ((c5_absorb_winner_selection (Body.mk (7 : ℚ) 0 0 Class.asteroid)
      (Body.mk 4 0 0 Class.asteroid)).2.2 (by simp)).1 (by norm_num)⟩

attribute [ext] PBody

lemma len_smul (c : ℝ) (v : Vec2 ℝ) : (c • v).len = |c| * v.len := by
  unfold Vec2.len
  have h : (c • v).len2 = c ^ 2 * v.len2 := by
    simp only [Vec2.len2, Vec2.smul_x, Vec2.smul_y]
    ring
  rw [h, Real.sqrt_mul (sq_nonneg c), Real.sqrt_sq_eq_abs]

lemma len_clampLengthMax (v : Vec2 ℝ) (m : ℝ) (hm : 0 ≤ m) :
    (clampLengthMax v m).len ≤ m := by
  unfold clampLengthMax
  by_cases h : v.len2 > m * m
  · rw [if_pos h]
    have hls : 0 < v.len2 := lt_of_le_of_lt (mul_self_nonneg m) h
    have hsq : Real.sqrt v.len2 ≠ 0 := ne_of_gt (Real.sqrt_pos.mpr hls)
    rw [len_smul, abs_of_nonneg (div_nonneg hm (Real.sqrt_nonneg _))]
    unfold Vec2.len
    rw [div_mul_cancel₀ m hsq]
  · rw [if_neg h]
    push_neg at h
    calc Vec2.len v = Real.sqrt v.len2 := rfl
      _ ≤ Real.sqrt (m * m) := Real.sqrt_le_sqrt h
      _ = m := Real.sqrt_mul_self hm

/-- Claim C6: while the running flag is set, one integrator step with
effective dt = base_dt * time_scale updates every body as
v_half = v + a*dt/2 and position += v_half*dt (phase 1, storing v_half as
the body velocity); then, with the freshly computed acceleration a_new,
v = v_half + a_new*dt/2 clamped so its length never exceeds the configured
maximum speed (phase 2); hence after phase 2 the speed of every body is at most
max_vel. -/
theorem c6_leapfrog_step_and_speed_cap (dt0 ts maxVel : ℝ)
    (bodies mid : List (PBody ℝ)) (hmv : 0 ≤ maxVel) :
    kick1Drift true dt0 ts bodies = bodies.map (fun b =>
      let vHalf : Vec2 ℝ := b.vel + ((dt0 * ts) / 2) • b.acc
      PBody.mk (b.pos + (dt0 * ts) • vHalf) vHalf b.acc) ∧
    kick2 true dt0 ts maxVel mid = mid.map (fun b =>
      PBody.mk b.pos
        (clampLengthMax (b.vel + ((dt0 * ts) / 2) • b.acc) maxVel) b.acc) ∧
    ∀ b ∈ kick2 true dt0 ts maxVel mid, (PBody.vel b).len ≤ maxVel := by
  have hfun : ∀ b : PBody ℝ,
      b.vel + b.acc * (dt0 * ts) * ((1 : ℝ) / 2) =
        b.vel + ((dt0 * ts) / 2) • b.acc := by
    intro b
    ext <;> simp <;> ring
  refine ⟨?_, ?_, ?_⟩
  · simp only [kick1Drift, if_true]
    refine List.map_congr_left fun b _ => ?_
    ext <;> simp <;> ring
  · simp only [kick2, if_true]
    refine List.map_congr_left fun b _ => ?_
    rw [hfun b]
  · intro b hb
    simp only [kick2, if_true, List.mem_map] at hb
    obtain ⟨a, _, rfl⟩ := hb
    exact len_clampLengthMax _ _ hmv

/-- Witness for C6: after phase 2 on one body with velocity (30, 40) and
max_vel 5, the speed is at most 5. -/
theorem c6_leapfrog_step_and_speed_cap_witness :
    (0 : ℝ) ≤ 5 ∧
    ∀ b ∈ kick2 true 1 1 5 [PBody.mk 0 ⟨30, 40⟩ 0], (PBody.vel b).len ≤ 5 :=
  ⟨by norm_num,
    (c6_leapfrog_step_and_speed_cap 1 1 5 [] [PBody.mk 0 ⟨30, 40⟩ 0]
      (by norm_num)).2.2⟩

lemma eq_of_len2_sub_eq_zero {pa pb : Vec2 ℝ} (h : (pb - pa).len2 = 0) :
    pa = pb := by
  simp only [Vec2.len2, Vec2.sub_x, Vec2.sub_y] at h
  have hx : (pb.x - pa.x) * (pb.x - pa.x) = 0 := by
    nlinarith [mul_self_nonneg (pb.x - pa.x), mul_self_nonneg (pb.y - pa.y)]
  have hy : (pb.y - pa.y) * (pb.y - pa.y) = 0 := by
    nlinarith [mul_self_nonneg (pb.x - pa.x), mul_self_nonneg (pb.y - pa.y)]
  have hx0 := sub_eq_zero.mp (mul_self_eq_zero.mp hx)
  have hy0 := sub_eq_zero.mp (mul_self_eq_zero.mp hy)
  ext
  · exact hx0.symm
  · exact hy0.symm

lemma len2_sub_pos {pa pb : Vec2 ℝ} (hne : pa ≠ pb) : 0 < (pb - pa).len2 :=
  lt_of_le_of_ne (len2_nonneg _) (fun h => hne (eq_of_len2_sub_eq_zero h.symm))

lemma dot_decomp_n (a b : ℝ) (n : Vec2 ℝ)
    (hn : n.x * n.x + n.y * n.y = 1) :
    (a • n + b • (⟨-n.y, n.x⟩ : Vec2 ℝ)).dot n = a := by
  simp only [Vec2.dot, Vec2.add_x, Vec2.add_y, Vec2.smul_x, Vec2.smul_y]
  linear_combination a * hn

lemma dot_decomp_t (a b : ℝ) (n : Vec2 ℝ)
    (hn : n.x * n.x + n.y * n.y = 1) :
    (a • n + b • (⟨-n.y, n.x⟩ : Vec2 ℝ)).dot ⟨-n.y, n.x⟩ = b := by
  simp only [Vec2.dot, Vec2.add_x, Vec2.add_y, Vec2.smul_x, Vec2.smul_y]
  linear_combination b * hn

lemma smul_decomp (v n : Vec2 ℝ) (hn : n.x * n.x + n.y * n.y = 1) :
    (v.dot n) • n + (v.dot ⟨-n.y, n.x⟩) • (⟨-n.y, n.x⟩ : Vec2 ℝ) = v := by
  ext
  · simp only [Vec2.dot, Vec2.add_x, Vec2.smul_x]
    linear_combination v.x * hn
  · simp only [Vec2.dot, Vec2.add_y, Vec2.smul_y]
    linear_combination v.y * hn

/-- Claim C7: for every elastic collision between bodies with positive
masses at distinct positions whose overlap test passes: with restitution 1
the kinetic energy carried by the normal velocity components is unchanged;
with restitution 0 both bodies leave with the same normal velocity
component; and for every restitution the tangential components pass through
unchanged. -/
theorem c7_elastic_restitution (pa pb va vb : Vec2 ℝ) (ma mb ra rb e : ℝ)
    (hma : 0 < ma) (hmb : 0 < mb) (hne : pa ≠ pb)
    (hov : (pb - pa).len2 ≤ (ra + rb) * (ra + rb)) :
    ∃ va2 vb2 pa2 pb2,
      elasticPair pa pb va vb ma mb ra rb e = some (va2, vb2, pa2, pb2) ∧
      (let normal := (pb - pa).divs (Real.sqrt (pb - pa).len2)
       let tangent : Vec2 ℝ := ⟨-normal.y, normal.x⟩
       (e = 1 → ma * va2.dot normal ^ 2 + mb * vb2.dot normal ^ 2 =
          ma * va.dot normal ^ 2 + mb * vb.dot normal ^ 2) ∧
       (e = 0 → va2.dot normal = vb2.dot normal) ∧
       va2.dot tangent = va.dot tangent ∧
       vb2.dot tangent = vb.dot tangent) := by
  have hpos : 0 < (pb - pa).len2 := len2_sub_pos hne
  have hsum : ma + mb ≠ 0 := by positivity
  unfold elasticPair
  rw [if_pos ⟨hov, hpos⟩]
  refine ⟨_, _, _, _, rfl, ?_⟩
  intro normal tangent
  have hn : normal.x * normal.x + normal.y * normal.y = 1 := by
    show (pb - pa).x / Real.sqrt (pb - pa).len2 *
        ((pb - pa).x / Real.sqrt (pb - pa).len2) +
      (pb - pa).y / Real.sqrt (pb - pa).len2 *
        ((pb - pa).y / Real.sqrt (pb - pa).len2) = 1
    have hs : Real.sqrt (pb - pa).len2 ≠ 0 :=
      ne_of_gt (Real.sqrt_pos.mpr hpos)
    field_simp
    simp [Vec2.len2]
  refine ⟨fun he => ?_, fun he => ?_, ?_, ?_⟩
  · rw [dot_decomp_n _ _ _ hn, dot_decomp_n _ _ _ hn, he]
    field_simp
    ring
  · rw [dot_decomp_n _ _ _ hn, dot_decomp_n _ _ _ hn, he]
    ring_nf
  · exact dot_decomp_t _ _ _ hn
  · exact dot_decomp_t _ _ _ hn

/-- Witness for C7 at bodies of mass 1 at (0,0) and (1,0) with radii 1 and
restitution 1. -/
theorem c7_elastic_restitution_witness :
    (0 : ℝ) < 1 ∧ (⟨0, 0⟩ : Vec2 ℝ) ≠ ⟨1, 0⟩ ∧
    (((⟨1, 0⟩ : Vec2 ℝ) - ⟨0, 0⟩).len2 ≤ (1 + 1) * (1 + 1)) ∧
    ∃ va2 vb2 pa2 pb2,
      elasticPair ⟨0, 0⟩ ⟨1, 0⟩ ⟨2, 3⟩ ⟨-1, 1⟩ 1 1 1 1 1 =
        some (va2, vb2, pa2, pb2) ∧
      (let normal := ((⟨1, 0⟩ : Vec2 ℝ) - ⟨0, 0⟩).divs
          (Real.sqrt ((⟨1, 0⟩ : Vec2 ℝ) - ⟨0, 0⟩).len2)
       let tangent : Vec2 ℝ := ⟨-normal.y, normal.x⟩
       ((1 : ℝ) = 1 →
          1 * va2.dot normal ^ 2 + 1 * vb2.dot normal ^ 2 =
            1 * Vec2.dot ⟨2, 3⟩ normal ^ 2 + 1 * Vec2.dot ⟨-1, 1⟩ normal ^ 2) ∧
       ((1 : ℝ) = 0 → va2.dot normal = vb2.dot normal) ∧
       va2.dot tangent = Vec2.dot ⟨2, 3⟩ tangent ∧
       vb2.dot tangent = Vec2.dot ⟨-1, 1⟩ tangent) :=
  ⟨by norm_num, by norm_num [Vec2.ext_iff], by norm_num [Vec2.len2],
    c7_elastic_restitution ⟨0, 0⟩ ⟨1, 0⟩ ⟨2, 3⟩ ⟨-1, 1⟩ 1 1 1 1 1
      (by norm_num) (by norm_num) (by norm_num [Vec2.ext_iff])
      (by norm_num [Vec2.len2])⟩

/-- Claim C8: in elastic mode, when two candidate bodies occupy exactly the
same position, the overlap test `dist2 > 0` fails, so the pair is skipped:
no division by zero is reached and no update is produced for that pair. -/
theorem c8_elastic_coincident_pair_skipped (pa va vb : Vec2 ℝ)
    (ma mb ra rb e : ℝ) :
    elasticPair pa pa va vb ma mb ra rb e = none := by
  unfold elasticPair
  rw [if_neg]
  rintro ⟨-, h⟩
  simp [Vec2.len2] at h

/-- Claim C10: for every restitution value and every elastic collision
between bodies with positive masses at distinct positions whose overlap
test passes, the resolution conserves total linear momentum exactly:
ma*va2 + mb*vb2 = ma*va + mb*vb. -/
theorem c10_elastic_momentum_conserved (pa pb va vb : Vec2 ℝ)
    (ma mb ra rb e : ℝ) (hma : 0 < ma) (hmb : 0 < mb) (hne : pa ≠ pb)
    (hov : (pb - pa).len2 ≤ (ra + rb) * (ra + rb)) :
    ∃ va2 vb2 pa2 pb2,
      elasticPair pa pb va vb ma mb ra rb e = some (va2, vb2, pa2, pb2) ∧
      ma • va2 + mb • vb2 = ma • va + mb • vb := by
  have hpos : 0 < (pb - pa).len2 := len2_sub_pos hne
  have hsum : ma + mb ≠ 0 := by positivity
  unfold elasticPair
  rw [if_pos ⟨hov, hpos⟩]
  refine ⟨_, _, _, _, rfl, ?_⟩
  set normal : Vec2 ℝ := (pb - pa).divs (Real.sqrt (pb - pa).len2)
    with hnormal
  have hn : normal.x * normal.x + normal.y * normal.y = 1 := by
    rw [hnormal]
    show (pb - pa).x / Real.sqrt (pb - pa).len2 *
        ((pb - pa).x / Real.sqrt (pb - pa).len2) +
      (pb - pa).y / Real.sqrt (pb - pa).len2 *
        ((pb - pa).y / Real.sqrt (pb - pa).len2) = 1
    have hs : Real.sqrt (pb - pa).len2 ≠ 0 :=
      ne_of_gt (Real.sqrt_pos.mpr hpos)
    field_simp
    simp [Vec2.len2]
  have hcoef :
      ma * ((e * mb * (vb.dot normal - va.dot normal) + ma * va.dot normal +
          mb * vb.dot normal) / (ma + mb)) +
        mb * ((e * ma * (va.dot normal - vb.dot normal) + ma * va.dot normal +
          mb * vb.dot normal) / (ma + mb)) =
      ma * va.dot normal + mb * vb.dot normal := by
    field_simp
    ring
  conv_rhs => rw [← smul_decomp va normal hn, ← smul_decomp vb normal hn]
  ext
  · simp only [Vec2.add_x, Vec2.smul_x]
    linear_combination normal.x * hcoef
  · simp only [Vec2.add_y, Vec2.smul_y]
    linear_combination normal.y * hcoef

/-- Witness for C10 at bodies of masses 1 and 3 at (0,0) and (0,2) with
radii 2 and restitution 1/2. -/
theorem c10_elastic_momentum_conserved_witness :
    (0 : ℝ) < 1 ∧ (0 : ℝ) < 3 ∧ (⟨0, 0⟩ : Vec2 ℝ) ≠ ⟨0, 2⟩ ∧
    (((⟨0, 2⟩ : Vec2 ℝ) - ⟨0, 0⟩).len2 ≤ (2 + 2) * (2 + 2)) ∧
    ∃ va2 vb2 pa2 pb2,
      elasticPair ⟨0, 0⟩ ⟨0, 2⟩ ⟨1, 1⟩ ⟨0, -1⟩ 1 3 2 2 (1 / 2) =
        some (va2, vb2, pa2, pb2) ∧
      (1 : ℝ) • va2 + (3 : ℝ) • vb2 =
        (1 : ℝ) • (⟨1, 1⟩ : Vec2 ℝ) + (3 : ℝ) • (⟨0, -1⟩ : Vec2 ℝ) :=
  ⟨by norm_num, by norm_num, by norm_num [Vec2.ext_iff],
    by norm_num [Vec2.len2],
    c10_elastic_momentum_conserved ⟨0, 0⟩ ⟨0, 2⟩ ⟨1, 1⟩ ⟨0, -1⟩ 1 3 2 2
      (1 / 2) (by norm_num) (by norm_num) (by norm_num [Vec2.ext_iff])
      (by norm_num [Vec2.len2])⟩

lemma radiusForMass_ge (m : ℝ) : (1.2 : ℝ) ≤ radiusForMass m := by
  unfold radiusForMass rclamp
  cases Class.fromMass m <;>
    exact le_min (le_trans (by norm_num) (le_max_right _ _)) (by norm_num)

lemma totalRadius_aux (bs : List HBody) :
    ∀ a : ℝ, a + 1.2 * bs.length ≤
      bs.foldl (fun acc b => acc + radiusForMass b.mass) a := by
  induction bs with
  | nil => intro a; simp
  | cons b rest ih =>
      intro a
      simp only [List.foldl_cons, List.length_cons]
      push_cast
      have h2 : (a + radiusForMass b.mass) + 1.2 * rest.length ≤
          rest.foldl (fun acc b => acc + radiusForMass b.mass)
            (a + radiusForMass b.mass) := ih (a + radiusForMass b.mass)
      have h3 := radiusForMass_ge b.mass
      linarith

lemma totalRadius_ge (bs : List HBody) :
    1.2 * (bs.length : ℝ) ≤ totalRadius bs := by
  have h := totalRadius_aux bs 0
  rw [zero_add] at h
  exact h

lemma mem_bucketInsert (m : ℤ × ℤ → List Nat) (k0 : ℤ × ℤ) (e : Nat)
    (i : Nat) (k : ℤ × ℤ) :
    i ∈ bucketInsert m k0 e k ↔ i ∈ m k ∨ (k = k0 ∧ i = e) := by
  unfold bucketInsert
  by_cases h : k = k0 <;> simp [h]

lemma mem_buildFrom (cell : ℝ) (ps : List (Vec2 ℝ)) :
    ∀ (n : Nat) (m : ℤ × ℤ → List Nat) (i : Nat) (k : ℤ × ℤ),
      i ∈ buildFrom cell ps n m k ↔
        i ∈ m k ∨ ∃ j, ∃ hj : j < ps.length, i = n + j ∧
          k = hashKey cell (ps.get ⟨j, hj⟩) := by
  induction ps with
  | nil =>
      intro n m i k
      simp [buildFrom]
  | cons p rest ih =>
      intro n m i k
      rw [show buildFrom cell (p :: rest) n m =
        buildFrom cell rest (n + 1) (bucketInsert m (hashKey cell p) n)
        from rfl]
      rw [ih, mem_bucketInsert]
      simp only [List.length_cons]
      constructor
      · rintro ((h | ⟨hk, hi⟩) | ⟨j, hj, hi, hk⟩)
        · exact Or.inl h
        · exact Or.inr ⟨0, by omega, by omega, hk⟩
        · exact Or.inr ⟨j + 1, by omega, by omega, hk⟩
      · rintro (h | ⟨j, hj, hi, hk⟩)
        · exact Or.inl (Or.inl h)
        · cases j with
          | zero => exact Or.inl (Or.inr ⟨hk, by omega⟩)
          | succ j2 => exact Or.inr ⟨j2, by omega, by omega, hk⟩

/-- Claim C9: after every spatial-hash rebuild, the cell size equals 2 times
the mean body radius when at least one body exists (the `max` with 1 in the
code is inert because every radius is clamped to at least 1.2), a fixed
default of 24 when none do, and every live body is placed in exactly one
cell, the one keyed by (floor(x/cell), floor(y/cell)). -/
theorem c9_spatial_hash_cells (bs : List HBody) :
    (bs = [] → cellSize bs = 24) ∧
    (bs ≠ [] →
      cellSize bs = 2 * (totalRadius bs / (bs.length : ℝ)) ∧
      ∀ (i : Nat) (hi : i < bs.length) (k : ℤ × ℤ),
        i ∈ spatialHashBuild bs k ↔
          k = hashKey (cellSize bs) (bs.get ⟨i, hi⟩).pos) := by
  constructor
  · rintro rfl
    simp [cellSize]
  · intro hne
    have hlen : 0 < bs.length := List.length_pos.mpr hne
    have hlenR : (0 : ℝ) < (bs.length : ℝ) := by exact_mod_cast hlen
    constructor
    · unfold cellSize
      rw [if_pos hlen]
      refine max_eq_left ?_
      have h1 : (1.2 : ℝ) ≤ totalRadius bs / (bs.length : ℝ) := by
        rw [le_div_iff₀ hlenR]
        exact totalRadius_ge bs
      linarith
    · intro i hi k
      unfold spatialHashBuild
      rw [mem_buildFrom]
      simp only [List.not_mem_nil, false_or, List.length_map, zero_add]
      constructor
      · rintro ⟨j, hj, rfl, hk⟩
        rw [hk]
        congr 1
        simp
      · intro hk
        refine ⟨i, hi, rfl, ?_⟩
        rw [hk]
        congr 1
        simp

/-- Witness for C9 on the singleton body list at the origin with mass 100.
-/
theorem c9_spatial_hash_cells_witness :
    ([HBody.mk ⟨0, 0⟩ 100] : List HBody) ≠ [] ∧
    (cellSize [HBody.mk ⟨0, 0⟩ 100] =
        2 * (totalRadius [HBody.mk ⟨0, 0⟩ 100] /
          (([HBody.mk ⟨0, 0⟩ 100] : List HBody).length : ℝ)) ∧
      ∀ (i : Nat) (hi : i < ([HBody.mk ⟨0, 0⟩ 100] : List HBody).length)
        (k : ℤ × ℤ),
        i ∈ spatialHashBuild [HBody.mk ⟨0, 0⟩ 100] k ↔
          k = hashKey (cellSize [HBody.mk ⟨0, 0⟩ 100])
            (([HBody.mk ⟨0, 0⟩ 100] : List HBody).get ⟨i, hi⟩).pos) :=
  ⟨by simp, (c9_spatial_hash_cells [HBody.mk ⟨0, 0⟩ 100]).2 (by simp)⟩

end Solar
